import Mathlib

/-!
# Verification of the seymour-core feed synchronization pipeline

A shallow embedding of the seymour-core Rust crate (`src/lib.rs`,
`src/sqlite.rs`, `src/http.rs`).  The SQLite-backed store is modelled as an
explicit state record holding the two relations (`feeds`, `feed_entries`)
as insertion-ordered lists of rows; `uuid::Uuid::new_v4()` is modelled as an
injective generator drawing from a counter held in the state, and SQLite's
`unixepoch()` as a clock field of the state.  Fallible operations return
`Except Error` paired with the successor state.  External parsing libraries
(the XML deserializer and the RFC 2822 date parser of `http.rs`) are
parameters of the fetcher, as they are external collaborators of the core.
-/

namespace Seymour

/-- `Feed` from `src/lib.rs`: a tracked subscription row of the `feeds`
relation. -/
structure Feed where
  id : String
  url : String
  title : Option String
  description : Option String
  last_synced_at : Option Nat
  created_at : Nat
  updated_at : Nat
deriving Repr, DecidableEq

/-- `FeedEntry` from `src/lib.rs`: a post row of the `feed_entries`
relation. -/
structure FeedEntry where
  id : String
  feed_id : String
  title : String
  description : String
  guid : String
  link : String
  created_at : Nat
  publish_time : Option Nat
deriving Repr, DecidableEq

/-- `RemoteFeed` from `src/lib.rs`: feed-level data fetched from the
server. -/
structure RemoteFeed where
  url : String
  title : String
  description : String
deriving Repr, DecidableEq

/-- `RemoteEntry` from `src/lib.rs`: one fetched item, pre-persistence. -/
structure RemoteEntry where
  title : String
  description : String
  guid : String
  link : String
  publish_time_unix_secs : Option Nat
deriving Repr, DecidableEq

/-- `Error` from `src/lib.rs`.  `Io` carries the io error's message;
`Internal` the wrapped message (rusqlite errors convert to `Internal` via
the `From` impl). -/
inductive Error where
  | NotFound
  | Io (msg : String)
  | Internal (msg : String)
deriving Repr, DecidableEq

/-- The store state: the two SQLite relations of `MIGRATIONS_SLICE`
(`src/sqlite.rs`) as row lists in insertion order, plus the uuid supply
counter and the `unixepoch()` clock. -/
structure Store where
  feeds : List Feed
  feed_entries : List FeedEntry
  nextId : Nat
  now : Nat
deriving Repr, DecidableEq

/-- Models `uuid::Uuid::new_v4().to_string()`: an injective supply of fresh
opaque id strings, indexed by the state's counter. -/
def genId (n : Nat) : String :=
  String.mk (List.replicate n 'u')

theorem genId_injective : Function.Injective genId := by
  intro a b h
  have hdata : List.replicate a 'u' = List.replicate b 'u' :=
    congrArg String.data h
  have hlen := congrArg List.length hdata
  simpa using hlen

/-- `Store::add_feed` (`src/sqlite.rs`): generate an id, `INSERT INTO feeds
(id, url)`; the insert fails on the `UNIQUE` url constraint or the id
primary key, surfaced as `Error::Internal` through rusqlite's `From` impl;
on success the freshly inserted row is read back (title, description,
last_synced_at are NULL, created_at and updated_at default to
`unixepoch()`). -/
def Store.add_feed (s : Store) (url : String) : Except Error Feed × Store :=
  let id := genId s.nextId
  let s1 : Store := { s with nextId := s.nextId + 1 }
  if s1.feeds.any (fun f => f.url == url || f.id == id) then
    (Except.error (Error.Internal "UNIQUE constraint failed"), s1)
  else
    let feed : Feed :=
      { id := id, url := url, title := none, description := none,
        last_synced_at := none, created_at := s1.now, updated_at := s1.now }
    (Except.ok feed, { s1 with feeds := s1.feeds ++ [feed] })

/-- `Store::get_feed` (`src/sqlite.rs`): point lookup by id;
`QueryReturnedNoRows` maps to `Error::NotFound`. -/
def Store.get_feed (s : Store) (id : String) : Except Error Feed :=
  match s.feeds.find? (fun f => f.id == id) with
  | some f => Except.ok f
  | none => Except.error Error.NotFound

/-- SQLite ordering on a nullable integer column: `NULL` compares smaller
than every value. -/
def optNatLt : Option Nat → Option Nat → Bool
  | none, none => false
  | none, some _ => true
  | some _, none => false
  | some a, some b => decide (a < b)

/-- The row order of `ORDER BY publish_time DESC, created_at DESC`
(`Store::list_entries`): `a` may precede `b` iff `a`'s publish_time is
strictly greater (with `NULL` smallest), or the publish_times are equal and
`a`'s created_at is at least `b`'s. -/
def entryBefore (a b : FeedEntry) : Prop :=
  optNatLt b.publish_time a.publish_time = true ∨
    (a.publish_time = b.publish_time ∧ b.created_at ≤ a.created_at)

instance : DecidableRel entryBefore := fun a b => by
  unfold entryBefore; infer_instance

/-- `Store::list_entries` (`src/sqlite.rs`): `SELECT ... FROM feed_entries
WHERE feed_id = ?1 ORDER BY publish_time DESC, created_at DESC`, embedded
declaratively as a filter followed by a sort under `entryBefore`. -/
def Store.list_entries (s : Store) (feed_id : String) :
    Except Error (List FeedEntry) :=
  Except.ok (List.insertionSort entryBefore
    (s.feed_entries.filter (fun p => p.feed_id == feed_id)))

/-- The `UPDATE feeds SET title = ?1, description = ?2, last_synced_at =
unixepoch() WHERE id = ?3` of `Store::update_feed`, per row.  Note that
`updated_at` is not in the SET list and no trigger exists in the schema. -/
def applyFeedUpdate (feed_id : String) (remote : RemoteFeed) (now : Nat)
    (f : Feed) : Feed :=
  if f.id == feed_id then
    { f with title := some remote.title, description := some remote.description,
             last_synced_at := some now }
  else f

/-- One iteration of the entry loop of `Store::update_feed`: generate an id
and `INSERT OR IGNORE INTO feed_entries ...`; the insert is silently dropped
when it would violate the `guid` UNIQUE constraint or the id primary key.
`created_at` defaults to `unixepoch()`. -/
def insertEntryStep (feed_id : String) (s : Store) (e : RemoteEntry) : Store :=
  let id := genId s.nextId
  let s1 : Store := { s with nextId := s.nextId + 1 }
  if s1.feed_entries.any (fun p => p.guid == e.guid || p.id == id) then s1
  else
    { s1 with feed_entries := s1.feed_entries ++
        [{ id := id, feed_id := feed_id, title := e.title,
           description := e.description, guid := e.guid, link := e.link,
           created_at := s1.now, publish_time := e.publish_time_unix_secs }] }

/-- `Store::update_feed` (`src/sqlite.rs`): update the feed row's title,
description and last_synced_at, then insert-or-ignore each remote entry. -/
def Store.update_feed (s : Store) (feed_id : String) (remote : RemoteFeed)
    (entries : List RemoteEntry) : Except Error Unit × Store :=
  let s1 : Store :=
    { s with feeds := s.feeds.map (applyFeedUpdate feed_id remote s.now) }
  (Except.ok (), entries.foldl (insertEntryStep feed_id) s1)

/-- `Store::list_feeds` (`src/sqlite.rs`): all feed rows, no ORDER BY, so in
insertion order. -/
def Store.list_feeds (s : Store) : Except Error (List Feed) :=
  Except.ok s.feeds

/-- The `Fetcher` trait of `src/lib.rs` at its interface: a url maps to a
fetched `(RemoteFeed, Vec<RemoteEntry>)` or an `Error`. -/
def Fetcher : Type :=
  String → Except Error (RemoteFeed × List RemoteEntry)

/-- `Core::add_feed` (`src/lib.rs`): fetch first (`?` propagates its error
before any store access), then `Store::add_feed`, then `Store::update_feed`
on the new feed's id; the `Feed` returned is the one `Store::add_feed` read
back before the merge. -/
def Core.add_feed (fetch : Fetcher) (s : Store) (url : String) :
    Except Error Feed × Store :=
  match fetch url with
  | Except.error e => (Except.error e, s)
  | Except.ok (remote_feed, remote_entries) =>
    match Store.add_feed s url with
    | (Except.error e, s1) => (Except.error e, s1)
    | (Except.ok feed, s1) =>
      match Store.update_feed s1 feed.id remote_feed remote_entries with
      | (Except.error e, s2) => (Except.error e, s2)
      | (Except.ok _, s2) => (Except.ok feed, s2)

/-- The `for feed in feeds` loop of `Core::sync_all` (`src/lib.rs`) over the
snapshot list returned by `list_feeds`: fetch then merge each feed in order;
`?` aborts the loop on the first failure, leaving the state as of that
point. -/
def Core.syncList (fetch : Fetcher) : List Feed → Store → Except Error Unit × Store
  | [], s => (Except.ok (), s)
  | f :: rest, s =>
    match fetch f.url with
    | Except.error e => (Except.error e, s)
    | Except.ok (rf, res) =>
      match Store.update_feed s f.id rf res with
      | (Except.error e, s1) => (Except.error e, s1)
      | (Except.ok _, s1) => Core.syncList fetch rest s1

/-- `Core::sync_all` (`src/lib.rs`): list all feeds, then fetch and merge
each in turn. -/
def Core.sync_all (fetch : Fetcher) (s : Store) : Except Error Unit × Store :=
  match Store.list_feeds s with
  | Except.error e => (Except.error e, s)
  | Except.ok feeds => Core.syncList fetch feeds s

/-- `Core::get_feed` (`src/lib.rs`): delegates to the store. -/
def Core.get_feed (s : Store) (id : String) : Except Error Feed :=
  Store.get_feed s id

/-- The `Item` XML node of `src/http.rs` as deserialized: all fields are the
document's strings, `pub_time` being the raw `pubDate` text. -/
structure Item where
  title : String
  link : String
  guid : String
  description : String
  pub_time : String
deriving Repr, DecidableEq

/-- The `Channel` XML node of `src/http.rs`. -/
structure Channel where
  title : String
  description : String
  link : String
  items : List Item
deriving Repr, DecidableEq

/-- The `Rss` XML document root of `src/http.rs`. -/
structure Rss where
  channel : Channel
deriving Repr, DecidableEq

/-- Outcome of the status-code `match` in `FeedFetcher::fetch`: either an
early `return Err(..)` or fall-through to body parsing. -/
inductive FetchStep where
  | fail (e : Error)
  | proceed
deriving Repr, DecidableEq

/-- The status `match` of `FeedFetcher::fetch` (`src/http.rs`): `400..=499`
returns `Error::NotFound`; `500..=599` returns `Error::Internal` with the
fixed remote-server message; `200..=299` and every other status fall
through to parsing. -/
def classifyStatus (status : Nat) : FetchStep :=
  if 400 ≤ status ∧ status ≤ 499 then FetchStep.fail Error.NotFound
  else if 500 ≤ status ∧ status ≤ 599 then
    FetchStep.fail (Error.Internal "error received from the remote server")
  else FetchStep.proceed

/-- The per-item conversion of `FeedFetcher::fetch`: fields copy over 1:1;
the publish time is `parse_from_rfc2822(pub_time).ok().and_then(|dt|
u64::try_from(dt.timestamp()).ok())` — `parseDate` stands for the chrono
parse returning the item's epoch timestamp (an `i64`), and the
`u64::try_from` drops negative values. -/
def convertItem (parseDate : String → Option Int) (item : Item) : RemoteEntry :=
  { title := item.title, description := item.description, guid := item.guid,
    link := item.link,
    publish_time_unix_secs :=
      (parseDate item.pub_time).bind
        (fun t => if 0 ≤ t then some t.toNat else none) }

/-- The parse phase of `FeedFetcher::fetch` after a fall-through status:
deserialize the body (`parseRss` stands for `serde_xml_rs::from_str`, its
error message wrapped in `Error::Internal`), map the channel to a
`RemoteFeed` and each item through `convertItem`. -/
def parsePhase (parseDate : String → Option Int)
    (parseRss : String → Except String Rss) (body : String) :
    Except Error (RemoteFeed × List RemoteEntry) :=
  match parseRss body with
  | Except.error msg => Except.error (Error.Internal msg)
  | Except.ok rss =>
    Except.ok
      ({ url := rss.channel.link, title := rss.channel.title,
         description := rss.channel.description },
       rss.channel.items.map (convertItem parseDate))

/-- An HTTP response at the fetcher's boundary: its status code and body
text. -/
structure HttpResponse where
  status : Nat
  body : String
deriving Repr, DecidableEq

/-- `FeedFetcher::fetch` (`src/http.rs`), for a url whose network retrieval
yielded `response`: classify the status, then parse the body. -/
def FeedFetcher.fetch (parseDate : String → Option Int)
    (parseRss : String → Except String Rss) (response : HttpResponse) :
    Except Error (RemoteFeed × List RemoteEntry) :=
  match classifyStatus response.status with
  | FetchStep.fail e => Except.error e
  | FetchStep.proceed => parsePhase parseDate parseRss response.body

/-- The guid column of the `feed_entries` relation, in row order. -/
def guids (s : Store) : List String :=
  s.feed_entries.map (fun p => p.guid)

/-- The global guid-uniqueness invariant: no two post rows across the whole
store share a guid. -/
def guidsNodup (s : Store) : Prop :=
  (guids s).Nodup

/-- Well-formedness of the uuid supply: every stored post row's id was drawn
from the generator at an index the counter has already passed (true of every
store built by the operations; rules out uuid collisions). -/
def entryIdsFresh (s : Store) : Prop :=
  ∀ p ∈ s.feed_entries, ∃ k, k < s.nextId ∧ p.id = genId k

/-- A store-mutating operation of the pipeline, tagged with the wall-clock
time at which it runs. -/
inductive Op where
  | add (now : Nat) (url : String)
  | merge (now : Nat) (feed_id : String) (rf : RemoteFeed) (es : List RemoteEntry)

/-- Run one operation against the store at its wall-clock time. -/
def applyOp (s : Store) : Op → Store
  | Op.add now url => (Store.add_feed { s with now := now } url).2
  | Op.merge now fid rf es => (Store.update_feed { s with now := now } fid rf es).2

/-- Run a sequence of operations. -/
def runOps (s : Store) (ops : List Op) : Store :=
  ops.foldl applyOp s

/-- The store as freshly migrated: both relations empty. -/
def emptyStore : Store :=
  { feeds := [], feed_entries := [], nextId := 0, now := 0 }

theorem insertEntryStep_feeds (fid : String) (s : Store) (e : RemoteEntry) :
    (insertEntryStep fid s e).feeds = s.feeds := by
  simp only [insertEntryStep]
  split <;> rfl

theorem insertEntryStep_now (fid : String) (s : Store) (e : RemoteEntry) :
    (insertEntryStep fid s e).now = s.now := by
  simp only [insertEntryStep]
  split <;> rfl

theorem insertEntryStep_entries (fid : String) (s : Store) (e : RemoteEntry) :
    ∃ t, (insertEntryStep fid s e).feed_entries = s.feed_entries ++ t := by
  simp only [insertEntryStep]
  split
  · exact ⟨[], by simp⟩
  · exact ⟨_, rfl⟩

theorem insertEntryStep_nodup (fid : String) (s : Store) (e : RemoteEntry)
    (h : guidsNodup s) : guidsNodup (insertEntryStep fid s e) := by
  unfold guidsNodup guids at *
  simp only [insertEntryStep]
  split
  · exact h
  · rename_i hany
    simp only [List.any_eq_true, Bool.or_eq_true, beq_iff_eq] at hany
    push_neg at hany
    simp only [List.map_append, List.map_cons, List.map_nil]
    rw [List.nodup_append]
    refine ⟨h, List.nodup_singleton _, ?_⟩
    intro g hg hg'
    simp only [List.mem_map] at hg
    obtain ⟨p, hp, rfl⟩ := hg
    simp only [List.mem_singleton] at hg'
    exact (hany p hp).1 hg'

theorem foldl_insert_feeds (fid : String) (es : List RemoteEntry) :
    ∀ s : Store, (es.foldl (insertEntryStep fid) s).feeds = s.feeds := by
  induction es with
  | nil => intro s; rfl
  | cons e rest ih =>
    intro s
    rw [List.foldl_cons, ih, insertEntryStep_feeds]

theorem foldl_insert_entries (fid : String) (es : List RemoteEntry) :
    ∀ s : Store, ∃ t,
      (es.foldl (insertEntryStep fid) s).feed_entries = s.feed_entries ++ t := by
  induction es with
  | nil => intro s; exact ⟨[], by simp⟩
  | cons e rest ih =>
    intro s
    obtain ⟨t1, h1⟩ := insertEntryStep_entries fid s e
    obtain ⟨t2, h2⟩ := ih (insertEntryStep fid s e)
    exact ⟨t1 ++ t2, by rw [List.foldl_cons, h2, h1, List.append_assoc]⟩

theorem foldl_insert_nodup (fid : String) (es : List RemoteEntry) :
    ∀ s : Store, guidsNodup s → guidsNodup (es.foldl (insertEntryStep fid) s) := by
  induction es with
  | nil => intro s h; exact h
  | cons e rest ih =>
    intro s h
    exact ih _ (insertEntryStep_nodup fid s e h)

theorem update_feed_ok (s : Store) (fid : String) (rf : RemoteFeed)
    (es : List RemoteEntry) :
    (Store.update_feed s fid rf es).1 = Except.ok () := rfl

theorem update_feed_entries_prefix (s : Store) (fid : String) (rf : RemoteFeed)
    (es : List RemoteEntry) :
    ∃ t, (Store.update_feed s fid rf es).2.feed_entries = s.feed_entries ++ t :=
  foldl_insert_entries fid es _

theorem update_feed_nodup (s : Store) (fid : String) (rf : RemoteFeed)
    (es : List RemoteEntry) (h : guidsNodup s) :
    guidsNodup (Store.update_feed s fid rf es).2 :=
  foldl_insert_nodup fid es _ h

theorem add_feed_entries (s : Store) (url : String) :
    (Store.add_feed s url).2.feed_entries = s.feed_entries := by
  simp only [Store.add_feed]
  split <;> rfl

theorem applyOp_nodup (s : Store) (op : Op) (h : guidsNodup s) :
    guidsNodup (applyOp s op) := by
  cases op with
  | add now url =>
    unfold guidsNodup guids at *
    rw [applyOp, add_feed_entries]
    exact h
  | merge now fid rf es => exact update_feed_nodup _ _ _ _ h

theorem runOps_nodup (ops : List Op) :
    ∀ s : Store, guidsNodup s → guidsNodup (runOps s ops) := by
  induction ops with
  | nil => intro s h; exact h
  | cons op rest ih =>
    intro s h
    exact ih _ (applyOp_nodup s op h)

theorem mem_guids_insertEntryStep (fid : String) (s : Store) (e : RemoteEntry)
    (g : String) (hg : g ∈ guids s) : g ∈ guids (insertEntryStep fid s e) := by
  obtain ⟨t, ht⟩ := insertEntryStep_entries fid s e
  unfold guids at *
  rw [ht]
  simp only [List.map_append, List.mem_append]
  exact Or.inl hg

theorem count_guids_insertEntryStep (fid : String) (s : Store) (e : RemoteEntry)
    (g : String) (hg : g ∈ guids s) :
    (guids (insertEntryStep fid s e)).count g = (guids s).count g := by
  unfold guids at *
  simp only [insertEntryStep]
  split
  · rfl
  · rename_i hany
    simp only [List.any_eq_true, Bool.or_eq_true, beq_iff_eq] at hany
    push_neg at hany
    simp only [List.map_append, List.map_cons, List.map_nil]
    rw [List.count_append]
    have hne : e.guid ≠ g := by
      intro heq
      obtain ⟨p, hp, hpg⟩ := List.mem_map.mp hg
      exact (hany p hp).1 (by rw [hpg, heq])
    have hcount : List.count g [e.guid] = 0 := by
      rw [List.count_eq_zero]
      simp only [List.mem_singleton]
      intro h
      exact hne h.symm
    rw [hcount, Nat.add_zero]

theorem count_guids_foldl (fid : String) (es : List RemoteEntry) :
    ∀ (s : Store) (g : String), g ∈ guids s →
      (guids (es.foldl (insertEntryStep fid) s)).count g = (guids s).count g := by
  induction es with
  | nil => intro s g _; rfl
  | cons e rest ih =>
    intro s g hg
    rw [List.foldl_cons, ih _ g (mem_guids_insertEntryStep fid s e g hg),
        count_guids_insertEntryStep fid s e g hg]

theorem count_guids_update_feed (s : Store) (fid : String) (rf : RemoteFeed)
    (es : List RemoteEntry) (g : String) (hg : g ∈ guids s) :
    (guids (Store.update_feed s fid rf es).2).count g = (guids s).count g :=
  count_guids_foldl fid es _ g hg

/-- C1: guid uniqueness is a global store invariant.  Every store reachable
from the migrated (empty) store by any sequence of `add_feed` and merge
(`update_feed`) operations has pairwise-distinct guids across all post rows
of all feeds; moreover any merge succeeds (`Ok(())`), leaves every
pre-existing post row byte-for-byte intact (the new entry list extends the
old one, so titles and descriptions of existing posts are never
overwritten), and for a guid already present it inserts no further row with
that guid (its row count is unchanged: the second insert is dropped). -/
theorem C1_guid_uniqueness :
    (∀ ops : List Op, guidsNodup (runOps emptyStore ops)) ∧
    (∀ (s : Store) (fid : String) (rf : RemoteFeed) (es : List RemoteEntry),
      (Store.update_feed s fid rf es).1 = Except.ok () ∧
      (∃ t, (Store.update_feed s fid rf es).2.feed_entries = s.feed_entries ++ t) ∧
      (∀ g ∈ guids s,
        (guids (Store.update_feed s fid rf es).2).count g = (guids s).count g)) := by
  constructor
  · intro ops
    refine runOps_nodup ops emptyStore ?_
    simp [guidsNodup, guids, emptyStore]
  · intro s fid rf es
    exact ⟨rfl, update_feed_entries_prefix s fid rf es,
      fun g hg => count_guids_update_feed s fid rf es g hg⟩

theorem insertEntryStep_fresh (fid : String) (s : Store) (e : RemoteEntry)
    (h : entryIdsFresh s) : entryIdsFresh (insertEntryStep fid s e) := by
  unfold entryIdsFresh at *
  simp only [insertEntryStep]
  split
  · intro p hp
    obtain ⟨k, hk, hpk⟩ := h p hp
    exact ⟨k, Nat.lt_succ_of_lt hk, hpk⟩
  · intro p hp
    simp only [List.mem_append, List.mem_singleton] at hp
    rcases hp with hp | rfl
    · obtain ⟨k, hk, hpk⟩ := h p hp
      exact ⟨k, Nat.lt_succ_of_lt hk, hpk⟩
    · exact ⟨s.nextId, Nat.lt_succ_self _, rfl⟩

theorem foldl_insert_fresh (fid : String) (es : List RemoteEntry) :
    ∀ s : Store, entryIdsFresh s →
      entryIdsFresh (es.foldl (insertEntryStep fid) s) := by
  induction es with
  | nil => intro s h; exact h
  | cons e rest ih =>
    intro s h
    exact ih _ (insertEntryStep_fresh fid s e h)

theorem insertEntryStep_skip (fid : String) (s : Store) (e : RemoteEntry)
    (hmem : e.guid ∈ guids s) :
    (insertEntryStep fid s e).feed_entries = s.feed_entries := by
  simp only [insertEntryStep]
  split
  · rfl
  · rename_i hany
    exfalso
    apply hany
    obtain ⟨p, hp, hpg⟩ := List.mem_map.mp hmem
    simp only [List.any_eq_true, Bool.or_eq_true, beq_iff_eq]
    exact ⟨p, hp, Or.inl hpg⟩

theorem mem_guids_self_insertEntryStep (fid : String) (s : Store)
    (e : RemoteEntry) (h : entryIdsFresh s) :
    e.guid ∈ guids (insertEntryStep fid s e) := by
  by_cases hmem : e.guid ∈ guids s
  · exact mem_guids_insertEntryStep fid s e _ hmem
  · unfold guids
    simp only [insertEntryStep]
    split
    · rename_i hany
      exfalso
      apply hmem
      simp only [List.any_eq_true, Bool.or_eq_true, beq_iff_eq] at hany
      obtain ⟨p, hp, hcase⟩ := hany
      rcases hcase with hguid | hid
      · exact List.mem_map.mpr ⟨p, hp, hguid⟩
      · obtain ⟨k, hk, hpk⟩ := h p hp
        have hgen : genId k = genId s.nextId := hpk.symm.trans hid
        exact absurd (genId_injective hgen) (Nat.ne_of_lt hk)
    · simp

theorem mem_guids_foldl (fid : String) (es : List RemoteEntry) :
    ∀ (s : Store) (g : String), g ∈ guids s →
      g ∈ guids (es.foldl (insertEntryStep fid) s) := by
  induction es with
  | nil => intro s g hg; exact hg
  | cons e rest ih =>
    intro s g hg
    exact ih _ g (mem_guids_insertEntryStep fid s e g hg)

theorem guid_present_after_foldl (fid : String) (es : List RemoteEntry) :
    ∀ s : Store, entryIdsFresh s →
      ∀ e ∈ es, e.guid ∈ guids (es.foldl (insertEntryStep fid) s) := by
  induction es with
  | nil => intro s _ e he; cases he
  | cons e0 rest ih =>
    intro s h e he
    rw [List.foldl_cons]
    rcases List.mem_cons.mp he with rfl | he'
    · exact mem_guids_foldl fid rest _ _
        (mem_guids_self_insertEntryStep fid s e h)
    · exact ih _ (insertEntryStep_fresh fid s e0 h) e he'

theorem foldl_insert_noop (fid : String) (es : List RemoteEntry) :
    ∀ s : Store, (∀ e ∈ es, e.guid ∈ guids s) →
      (es.foldl (insertEntryStep fid) s).feed_entries = s.feed_entries := by
  induction es with
  | nil => intro s _; rfl
  | cons e rest ih =>
    intro s h
    rw [List.foldl_cons]
    have hskip := insertEntryStep_skip fid s e (h e (List.mem_cons_self e rest))
    have hguids : guids (insertEntryStep fid s e) = guids s := by
      unfold guids
      rw [hskip]
    rw [ih _ (fun e' he' => hguids ▸ h e' (List.mem_cons_of_mem e he')), hskip]

theorem update_feed_fresh (s : Store) (fid : String) (rf : RemoteFeed)
    (es : List RemoteEntry) (h : entryIdsFresh s) :
    entryIdsFresh (Store.update_feed s fid rf es).2 :=
  foldl_insert_fresh fid es _ h

theorem update_feed_guid_present (s : Store) (fid : String) (rf : RemoteFeed)
    (es : List RemoteEntry) (h : entryIdsFresh s) :
    ∀ e ∈ es, e.guid ∈ guids (Store.update_feed s fid rf es).2 :=
  guid_present_after_foldl fid es _ h

/-- C2: the merge is idempotent per guid.  For a well-formed store (every
stored post id came from the uuid supply), merging the same remote entry
list into the same feed twice in succession leaves exactly the row list —
in particular the row count — the first merge produced, and both merges
return `Ok(())` (guid conflicts are swallowed, never surfaced). -/
theorem C2_merge_idempotent (s : Store) (h : entryIdsFresh s) (fid : String)
    (rf : RemoteFeed) (es : List RemoteEntry) :
    (Store.update_feed (Store.update_feed s fid rf es).2 fid rf es).2.feed_entries
        = (Store.update_feed s fid rf es).2.feed_entries ∧
    ((Store.update_feed (Store.update_feed s fid rf es).2 fid rf es).2.feed_entries).length
        = ((Store.update_feed s fid rf es).2.feed_entries).length ∧
    (Store.update_feed s fid rf es).1 = Except.ok () ∧
    (Store.update_feed (Store.update_feed s fid rf es).2 fid rf es).1
        = Except.ok () := by
  have hpresent : ∀ e ∈ es, e.guid ∈ guids (Store.update_feed s fid rf es).2 :=
    update_feed_guid_present s fid rf es h
  have hnoop :
      (Store.update_feed (Store.update_feed s fid rf es).2 fid rf es).2.feed_entries
        = (Store.update_feed s fid rf es).2.feed_entries := by
    simp only [Store.update_feed]
    exact foldl_insert_noop fid es _ (fun e he => hpresent e he)
  exact ⟨hnoop, by rw [hnoop], rfl, rfl⟩

/-- The `RemoteFeed` used by concrete witnesses. -/
def rfW : RemoteFeed :=
  { url := "https://a.example/rss", title := "A", description := "D" }

/-- A remote entry used by concrete witnesses. -/
def eW : RemoteEntry :=
  { title := "T", description := "B", guid := "g1", link := "https://a.example/1",
    publish_time_unix_secs := some 7 }

theorem C2_merge_idempotent_witness :
    entryIdsFresh emptyStore ∧
    ((Store.update_feed (Store.update_feed emptyStore "f" rfW [eW]).2 "f" rfW [eW]).2.feed_entries
        = (Store.update_feed emptyStore "f" rfW [eW]).2.feed_entries ∧
    ((Store.update_feed (Store.update_feed emptyStore "f" rfW [eW]).2 "f" rfW [eW]).2.feed_entries).length
        = ((Store.update_feed emptyStore "f" rfW [eW]).2.feed_entries).length ∧
    (Store.update_feed emptyStore "f" rfW [eW]).1 = Except.ok () ∧
    (Store.update_feed (Store.update_feed emptyStore "f" rfW [eW]).2 "f" rfW [eW]).1
        = Except.ok ()) :=
  ⟨by intro p hp; simp [emptyStore] at hp,
   C2_merge_idempotent emptyStore (by intro p hp; simp [emptyStore] at hp)
     "f" rfW [eW]⟩

theorem optNatLt_trans (x y z : Option Nat) (h1 : optNatLt x y = true)
    (h2 : optNatLt y z = true) : optNatLt x z = true := by
  cases x <;> cases y <;> cases z <;> simp_all [optNatLt]
  omega

theorem optNatLt_total (x y : Option Nat) :
    optNatLt x y = true ∨ optNatLt y x = true ∨ x = y := by
  cases x <;> cases y <;> simp [optNatLt]
  omega

theorem optNatLt_none_right (x : Option Nat) : optNatLt x none = false := by
  cases x <;> rfl

instance : IsTrans FeedEntry entryBefore where
  trans := by
    intro a b c hab hbc
    rcases hab with hab | ⟨hab1, hab2⟩ <;> rcases hbc with hbc | ⟨hbc1, hbc2⟩
    · exact Or.inl (optNatLt_trans _ _ _ hbc hab)
    · exact Or.inl (hbc1 ▸ hab)
    · left
      rw [hab1]
      exact hbc
    · exact Or.inr ⟨hab1.trans hbc1, Nat.le_trans hbc2 hab2⟩

instance : IsTotal FeedEntry entryBefore where
  total := by
    intro a b
    rcases optNatLt_total a.publish_time b.publish_time with h | h | h
    · exact Or.inr (Or.inl h)
    · exact Or.inl (Or.inl h)
    · rcases Nat.le_total b.created_at a.created_at with hc | hc
      · exact Or.inl (Or.inr ⟨h, hc⟩)
      · exact Or.inr (Or.inr ⟨h.symm, hc⟩)

/-- C3: `list_entries` returns exactly the posts of the requested feed (a
permutation of the rows whose `feed_id` matches), sorted by `publish_time`
descending with `created_at` descending as tiebreak (`entryBefore`), and
every post with an absent `publish_time` appears after every post with a
present one. -/
theorem C3_list_entries_ordering (s : Store) (fid : String) :
    ∃ l, Store.list_entries s fid = Except.ok l ∧
      l.Perm (s.feed_entries.filter (fun p => p.feed_id == fid)) ∧
      List.Sorted entryBefore l ∧
      l.Pairwise (fun a b => a.publish_time = none → b.publish_time = none) := by
  refine ⟨_, rfl, List.perm_insertionSort _ _, List.sorted_insertionSort _ _, ?_⟩
  have hs := List.sorted_insertionSort entryBefore
    (s.feed_entries.filter (fun p => p.feed_id == fid))
  refine List.Pairwise.imp ?_ hs
  intro a b hab ha
  rcases hab with hab | ⟨h1, _⟩
  · rw [ha, optNatLt_none_right] at hab
    simp at hab
  · rw [← h1]
    exact ha

/-- C4: fetch-before-create.  When the fetch of a url fails,
`Core::add_feed` returns exactly that error and the store is byte-for-byte
unchanged: no feed row and no post row was created. -/
theorem C4_fetch_before_create (fetch : Fetcher) (s : Store) (url : String)
    (e : Error) (h : fetch url = Except.error e) :
    Core.add_feed fetch s url = (Except.error e, s) := by
  simp only [Core.add_feed, h]

/-- A fetcher whose every fetch fails, as a mocked 404 would. -/
def fetchFailW : Fetcher := fun _ => Except.error Error.NotFound

theorem C4_fetch_before_create_witness :
    fetchFailW "https://a.example/rss" = Except.error Error.NotFound ∧
    Core.add_feed fetchFailW emptyStore "https://a.example/rss"
      = (Except.error Error.NotFound, emptyStore) :=
  ⟨rfl, C4_fetch_before_create fetchFailW emptyStore "https://a.example/rss"
    Error.NotFound rfl⟩

theorem syncList_abort (fetch : Fetcher) (f : Feed) (post : List Feed)
    (e : Error) (hf : fetch f.url = Except.error e) :
    ∀ (pre : List Feed) (s : Store),
      (∀ g ∈ pre, ∃ v, fetch g.url = Except.ok v) →
      Core.syncList fetch (pre ++ f :: post) s
          = (Except.error e, (Core.syncList fetch pre s).2) ∧
      (Core.syncList fetch pre s).1 = Except.ok () := by
  intro pre
  induction pre with
  | nil =>
    intro s _
    refine ⟨?_, rfl⟩
    simp only [List.nil_append, Core.syncList, hf]
  | cons g rest ih =>
    intro s hpre
    obtain ⟨v, hv⟩ := hpre g (List.mem_cons_self g rest)
    obtain ⟨rf, res⟩ := v
    have hrest : ∀ g' ∈ rest, ∃ v, fetch g'.url = Except.ok v :=
      fun g' hg' => hpre g' (List.mem_cons_of_mem g hg')
    constructor
    · rw [List.cons_append]
      simp only [Core.syncList, hv, Store.update_feed]
      exact (ih _ hrest).1
    · simp only [Core.syncList, hv, Store.update_feed]
      exact (ih _ hrest).2

/-- C5: `sync_all` failure policy.  For a store whose feed list splits as
`pre ++ f :: post` where every feed of `pre` fetches successfully and `f`'s
fetch fails with `e`, `sync_all` surfaces `e` and the final store is exactly
the one obtained by merging the feeds of `pre` in list order: those merges
stay committed, while `f` and everything after it are untouched. -/
theorem C5_sync_all_abort (fetch : Fetcher) (s : Store) (pre post : List Feed)
    (f : Feed) (e : Error)
    (hfeeds : s.feeds = pre ++ f :: post)
    (hpre : ∀ g ∈ pre, ∃ v, fetch g.url = Except.ok v)
    (hf : fetch f.url = Except.error e) :
    Core.sync_all fetch s = (Except.error e, (Core.syncList fetch pre s).2) ∧
    (Core.syncList fetch pre s).1 = Except.ok () := by
  have h := syncList_abort fetch f post e hf pre s hpre
  refine ⟨?_, h.2⟩
  simp only [Core.sync_all, Store.list_feeds]
  rw [hfeeds]
  exact h.1

/-- A feed row as freshly created at time 0, used by concrete witnesses. -/
def feedW0 : Feed :=
  { id := "f0", url := "https://a.example/rss", title := none,
    description := none, last_synced_at := none, created_at := 0,
    updated_at := 0 }

/-- A one-feed store used by concrete witnesses. -/
def sSyncW : Store :=
  { feeds := [feedW0], feed_entries := [], nextId := 0, now := 0 }

theorem C5_sync_all_abort_witness :
    sSyncW.feeds = [] ++ feedW0 :: [] ∧
    fetchFailW feedW0.url = Except.error Error.NotFound ∧
    (Core.sync_all fetchFailW sSyncW
        = (Except.error Error.NotFound, (Core.syncList fetchFailW [] sSyncW).2) ∧
      (Core.syncList fetchFailW [] sSyncW).1 = Except.ok ()) :=
  ⟨rfl, rfl,
   C5_sync_all_abort fetchFailW sSyncW [] [] feedW0 Error.NotFound rfl
     (by intro g hg; cases hg) rfl⟩

theorem foldl_insert_now (fid : String) (es : List RemoteEntry) :
    ∀ s : Store, (es.foldl (insertEntryStep fid) s).now = s.now := by
  induction es with
  | nil => intro s; rfl
  | cons e rest ih =>
    intro s
    rw [List.foldl_cons, ih, insertEntryStep_now]

theorem update_feed_feeds (s : Store) (fid : String) (rf : RemoteFeed)
    (es : List RemoteEntry) :
    (Store.update_feed s fid rf es).2.feeds
      = s.feeds.map (applyFeedUpdate fid rf s.now) := by
  simp only [Store.update_feed]
  rw [foldl_insert_feeds]

theorem applyFeedUpdate_id (fid : String) (rf : RemoteFeed) (now : Nat)
    (f : Feed) : (applyFeedUpdate fid rf now f).id = f.id := by
  unfold applyFeedUpdate
  split <;> rfl

/-- The feed row of the C6 counterexample: created (and last touched) at
time 5. -/
def feedW5 : Feed :=
  { id := "f1", url := "https://b.example/rss", title := none,
    description := none, last_synced_at := none, created_at := 5,
    updated_at := 5 }

/-- A store holding `feedW5`, with the clock now at 10. -/
def sW : Store :=
  { feeds := [feedW5], feed_entries := [], nextId := 0, now := 10 }

/-- C6 counterexample: a merge at time 10 into a feed whose `updated_at` is
5 succeeds and sets `last_synced_at` to 10, but leaves `updated_at` at 5 —
the claim that the merge also sets `updated_at` is false (the SQL `UPDATE`
does not list it and the schema has no update trigger). -/
theorem C6_counterexample :
    (Store.update_feed sW "f1" rfW []).1 = Except.ok () ∧
    ((Store.update_feed sW "f1" rfW []).2.feeds.map (fun f => f.last_synced_at))
      = [some 10] ∧
    ((Store.update_feed sW "f1" rfW []).2.feeds.map (fun f => f.updated_at))
      = [5] ∧
    ¬ ((Store.update_feed sW "f1" rfW []).2.feeds.map (fun f => f.updated_at))
      = [10] :=
  ⟨rfl, by decide, by decide, by decide⟩

/-- C6 (amended): a successful merge on an existing feed sets the feed
row's title and description from the `RemoteFeed` and `last_synced_at` to
the current time, and leaves every other field — id, url, created_at, and
also `updated_at` — unchanged. -/
theorem C6_merge_feed_fields (s : Store) (fid : String) (rf : RemoteFeed)
    (es : List RemoteEntry) (f : Feed) (hf : f ∈ s.feeds) (hid : f.id = fid) :
    (Store.update_feed s fid rf es).1 = Except.ok () ∧
    ({ f with title := some rf.title,
              description := some rf.description,
              last_synced_at := some s.now } : Feed)
      ∈ (Store.update_feed s fid rf es).2.feeds := by
  refine ⟨rfl, ?_⟩
  rw [update_feed_feeds]
  refine List.mem_map.mpr ⟨f, hf, ?_⟩
  unfold applyFeedUpdate
  rw [if_pos (by simp [hid])]

theorem C6_merge_feed_fields_witness :
    feedW5 ∈ sW.feeds ∧ feedW5.id = "f1" ∧
    ((Store.update_feed sW "f1" rfW []).1 = Except.ok () ∧
     ({ feedW5 with title := some rfW.title,
                    description := some rfW.description,
                    last_synced_at := some sW.now } : Feed)
       ∈ (Store.update_feed sW "f1" rfW []).2.feeds) :=
  ⟨by simp [sW], rfl,
   C6_merge_feed_fields sW "f1" rfW [] feedW5 (by simp [sW]) rfl⟩

/-- C7: status classification of `FeedFetcher::fetch`.  A 4xx response
fails with `NotFound`; a 5xx response fails with the internal
remote-server error (the spec's `RemoteError`); every other status —
2xx, 1xx, 3xx — proceeds to parse the body. -/
theorem C7_status_classification (parseDate : String → Option Int)
    (parseRss : String → Except String Rss) (resp : HttpResponse) :
    (400 ≤ resp.status → resp.status ≤ 499 →
      FeedFetcher.fetch parseDate parseRss resp = Except.error Error.NotFound) ∧
    (500 ≤ resp.status → resp.status ≤ 599 →
      FeedFetcher.fetch parseDate parseRss resp
        = Except.error (Error.Internal "error received from the remote server")) ∧
    (resp.status < 400 ∨ 600 ≤ resp.status →
      FeedFetcher.fetch parseDate parseRss resp
        = parsePhase parseDate parseRss resp.body) := by
  refine ⟨?_, ?_, ?_⟩
  · intro h1 h2
    unfold FeedFetcher.fetch classifyStatus
    rw [if_pos ⟨h1, h2⟩]
  · intro h1 h2
    have hnot : ¬ (400 ≤ resp.status ∧ resp.status ≤ 499) := by omega
    unfold FeedFetcher.fetch classifyStatus
    rw [if_neg hnot, if_pos ⟨h1, h2⟩]
  · intro h
    have h1 : ¬ (400 ≤ resp.status ∧ resp.status ≤ 499) := by omega
    have h2 : ¬ (500 ≤ resp.status ∧ resp.status ≤ 599) := by omega
    unfold FeedFetcher.fetch classifyStatus
    rw [if_neg h1, if_neg h2]

/-- A date parser that fails on every input. -/
def parseDateW : String → Option Int := fun _ => none

/-- An XML parser that rejects every body. -/
def parseRssErrW : String → Except String Rss := fun _ => Except.error "malformed"

def resp404 : HttpResponse := { status := 404, body := "" }

def resp503 : HttpResponse := { status := 503, body := "" }

def resp200 : HttpResponse := { status := 200, body := "" }

theorem C7_status_classification_witness :
    (400 ≤ resp404.status ∧ resp404.status ≤ 499 ∧
      FeedFetcher.fetch parseDateW parseRssErrW resp404
        = Except.error Error.NotFound) ∧
    (500 ≤ resp503.status ∧ resp503.status ≤ 599 ∧
      FeedFetcher.fetch parseDateW parseRssErrW resp503
        = Except.error (Error.Internal "error received from the remote server")) ∧
    (resp200.status < 400 ∧
      FeedFetcher.fetch parseDateW parseRssErrW resp200
        = parsePhase parseDateW parseRssErrW resp200.body) :=
  ⟨⟨by decide, by decide,
    (C7_status_classification parseDateW parseRssErrW resp404).1
      (by decide) (by decide)⟩,
   ⟨by decide, by decide,
    (C7_status_classification parseDateW parseRssErrW resp503).2.1
      (by decide) (by decide)⟩,
   ⟨by decide,
    (C7_status_classification parseDateW parseRssErrW resp200).2.2
      (Or.inl (by decide))⟩⟩

/-- C8: lossy timestamp tolerance.  For any item of a successfully parsed
document whose publish-date string fails to parse, the fetch still succeeds
and its output contains that item with title, link, guid and description
intact and `publish_time_unix_secs` absent. -/
theorem C8_lossy_timestamp (parseDate : String → Option Int)
    (parseRss : String → Except String Rss) (resp : HttpResponse) (rss : Rss)
    (hstatus : classifyStatus resp.status = FetchStep.proceed)
    (hparse : parseRss resp.body = Except.ok rss)
    (item : Item) (hmem : item ∈ rss.channel.items)
    (hdate : parseDate item.pub_time = none) :
    ∃ feed entries,
      FeedFetcher.fetch parseDate parseRss resp = Except.ok (feed, entries) ∧
      ({ title := item.title, description := item.description,
         guid := item.guid, link := item.link,
         publish_time_unix_secs := none } : RemoteEntry) ∈ entries := by
  have hfetch : FeedFetcher.fetch parseDate parseRss resp
      = Except.ok
          ({ url := rss.channel.link, title := rss.channel.title,
             description := rss.channel.description },
           rss.channel.items.map (convertItem parseDate)) := by
    simp only [FeedFetcher.fetch, hstatus, parsePhase, hparse]
  refine ⟨_, _, hfetch, ?_⟩
  have hconv : convertItem parseDate item
      = { title := item.title, description := item.description,
          guid := item.guid, link := item.link,
          publish_time_unix_secs := none } := by
    unfold convertItem
    rw [hdate]
    rfl
  rw [← hconv]
  exact List.mem_map.mpr ⟨item, hmem, rfl⟩

/-- The item of the C8 witness: its pubDate text parses as no date. -/
def itemW : Item :=
  { title := "T", link := "https://a.example/1", guid := "g",
    description := "D", pub_time := "not-a-date" }

def rssW : Rss :=
  { channel := { title := "C", description := "CD", link := "https://a.example/",
                 items := [itemW] } }

/-- An XML parser that returns `rssW` for every body. -/
def parseRssOkW : String → Except String Rss := fun _ => Except.ok rssW

def respOkW : HttpResponse := { status := 200, body := "body" }

theorem C8_lossy_timestamp_witness :
    classifyStatus respOkW.status = FetchStep.proceed ∧
    parseRssOkW respOkW.body = Except.ok rssW ∧
    itemW ∈ rssW.channel.items ∧
    parseDateW itemW.pub_time = none ∧
    (∃ feed entries,
      FeedFetcher.fetch parseDateW parseRssOkW respOkW
        = Except.ok (feed, entries) ∧
      ({ title := itemW.title, description := itemW.description,
         guid := itemW.guid, link := itemW.link,
         publish_time_unix_secs := none } : RemoteEntry) ∈ entries) :=
  ⟨by decide, rfl, by simp [rssW], rfl,
   C8_lossy_timestamp parseDateW parseRssOkW respOkW rssW (by decide) rfl
     itemW (by simp [rssW]) rfl⟩

/-- C9: duplicate URL rejection.  When the store already holds exactly one
feed row with the given url, a second `Store::add_feed` on that url fails
with an internal (constraint-violation) error, the feed relation is
byte-for-byte unchanged, and the store still holds exactly one row with
that url. -/
theorem C9_duplicate_url (s : Store) (url : String)
    (hone : (s.feeds.filter (fun f => f.url == url)).length = 1) :
    (∃ msg, (Store.add_feed s url).1 = Except.error (Error.Internal msg)) ∧
    (Store.add_feed s url).2.feeds = s.feeds ∧
    ((Store.add_feed s url).2.feeds.filter (fun f => f.url == url)).length = 1 := by
  have hex : ∃ f ∈ s.feeds, (f.url == url) = true := by
    rcases hfilter : s.feeds.filter (fun f => f.url == url) with _ | ⟨f, rest⟩
    · rw [hfilter] at hone
      simp at hone
    · have hf : f ∈ s.feeds.filter (fun f => f.url == url) := by
        rw [hfilter]
        exact List.mem_cons_self f rest
      have hmem := List.mem_filter.mp hf
      exact ⟨f, hmem.1, hmem.2⟩
  have hany : (s.feeds.any (fun f => f.url == url || f.id == genId s.nextId))
      = true := by
    obtain ⟨f, hf, hu⟩ := hex
    simp only [List.any_eq_true, Bool.or_eq_true]
    exact ⟨f, hf, Or.inl hu⟩
  have hkey : Store.add_feed s url
      = (Except.error (Error.Internal "UNIQUE constraint failed"),
         { s with nextId := s.nextId + 1 }) := by
    simp only [Store.add_feed]
    split
    · rfl
    · rename_i hno
      exact absurd hany hno
  refine ⟨⟨"UNIQUE constraint failed", by rw [hkey]⟩, by rw [hkey], ?_⟩
  rw [hkey]
  exact hone

theorem C9_duplicate_url_witness :
    ((sSyncW.feeds.filter (fun f => f.url == "https://a.example/rss")).length
        = 1) ∧
    ((∃ msg, (Store.add_feed sSyncW "https://a.example/rss").1
        = Except.error (Error.Internal msg)) ∧
     (Store.add_feed sSyncW "https://a.example/rss").2.feeds = sSyncW.feeds ∧
     ((Store.add_feed sSyncW "https://a.example/rss").2.feeds.filter
        (fun f => f.url == "https://a.example/rss")).length = 1) :=
  ⟨by decide, C9_duplicate_url sSyncW "https://a.example/rss" (by decide)⟩

theorem find?_append_of_all_neg {α : Type} (p : α → Bool) (l1 l2 : List α)
    (h : ∀ x ∈ l1, ¬ p x = true) :
    List.find? p (l1 ++ l2) = List.find? p l2 := by
  induction l1 with
  | nil => rfl
  | cons a t ih =>
    rw [List.cons_append,
        List.find?_cons_of_neg _ (h a (List.mem_cons_self a t)),
        ih (fun x hx => h x (List.mem_cons_of_mem a hx))]

/-- C10: the `Feed` a successful `Core::add_feed` returns is the row
snapshot read right after the insert and before the merge: its title,
description and last_synced_at are `None`; yet a `get_feed` on the returned
id against the post-call store observes the fields the in-call merge
populated (title and description from the fetched `RemoteFeed`,
last_synced_at as the current time). -/
theorem C10_add_feed_snapshot (fetch : Fetcher) (s : Store) (url : String)
    (rf : RemoteFeed) (res : List RemoteEntry) (feed : Feed) (s2 : Store)
    (hfetch : fetch url = Except.ok (rf, res))
    (h : Core.add_feed fetch s url = (Except.ok feed, s2)) :
    feed.title = none ∧ feed.description = none ∧ feed.last_synced_at = none ∧
    ∃ f2, Store.get_feed s2 feed.id = Except.ok f2 ∧
      f2.title = some rf.title ∧ f2.description = some rf.description ∧
      f2.last_synced_at = some s.now := by
  simp only [Core.add_feed, hfetch, Store.add_feed] at h
  split at h
  · simp at h
  · rename_i x1 feed1 s1 hEq
    simp only [Store.update_feed, Prod.mk.injEq, Except.ok.injEq] at h
    split at hEq
    · simp at hEq
    · rename_i hcond
      simp only [Prod.mk.injEq, Except.ok.injEq] at hEq
      obtain ⟨hfeed, hstate⟩ := hEq
      obtain ⟨hf2, hs2⟩ := h
      subst hfeed
      subst hstate
      subst hf2
      subst hs2
      refine ⟨rfl, rfl, rfl, ?_⟩
      simp only [List.any_eq_true, Bool.or_eq_true, beq_iff_eq] at hcond
      push_neg at hcond
      unfold Store.get_feed
      rw [foldl_insert_feeds]
      dsimp only
      rw [List.map_append]
      rw [find?_append_of_all_neg _ _ _ (by
        intro x hx
        obtain ⟨g, hg, rfl⟩ := List.mem_map.mp hx
        rw [applyFeedUpdate_id]
        simp only [beq_iff_eq]
        exact (hcond g hg).2)]
      rw [List.map_cons, List.map_nil,
          List.find?_cons_of_pos _ (by simp [applyFeedUpdate_id])]
      refine ⟨_, rfl, ?_, ?_, ?_⟩ <;> simp [applyFeedUpdate]

/-- A fetcher that succeeds with `rfW` and no items on every url. -/
def fetchOkW : Fetcher := fun _ => Except.ok (rfW, [])

/-- The feed row `Core::add_feed` returns in the C10 witness run. -/
def feedC10 : Feed :=
  { id := genId 0, url := "https://a.example/rss", title := none,
    description := none, last_synced_at := none, created_at := 0,
    updated_at := 0 }

/-- The feed row of `s2C10`, as the in-call merge leaves it. -/
def feedC10m : Feed :=
  { feedC10 with title := some rfW.title,
                 description := some rfW.description,
                 last_synced_at := some 0 }

/-- The store after the C10 witness run of `Core::add_feed`. -/
def s2C10 : Store :=
  { feeds := [feedC10m], feed_entries := [], nextId := 1, now := 0 }

instance {ε α : Type} [DecidableEq ε] [DecidableEq α] :
    DecidableEq (Except ε α) := fun a b =>
  match a, b with
  | Except.ok x, Except.ok y =>
    if h : x = y then Decidable.isTrue (h ▸ rfl)
    else Decidable.isFalse (fun he => h (Except.ok.inj he))
  | Except.error x, Except.error y =>
    if h : x = y then Decidable.isTrue (h ▸ rfl)
    else Decidable.isFalse (fun he => h (Except.error.inj he))
  | Except.ok _, Except.error _ =>
    Decidable.isFalse (fun he => Except.noConfusion he)
  | Except.error _, Except.ok _ =>
    Decidable.isFalse (fun he => Except.noConfusion he)

theorem C10_add_feed_snapshot_witness :
    fetchOkW "https://a.example/rss" = Except.ok (rfW, []) ∧
    Core.add_feed fetchOkW emptyStore "https://a.example/rss"
      = (Except.ok feedC10, s2C10) ∧
    (feedC10.title = none ∧ feedC10.description = none ∧
     feedC10.last_synced_at = none ∧
     ∃ f2, Store.get_feed s2C10 feedC10.id = Except.ok f2 ∧
       f2.title = some rfW.title ∧ f2.description = some rfW.description ∧
       f2.last_synced_at = some emptyStore.now) :=
  ⟨rfl, by decide,
   C10_add_feed_snapshot fetchOkW emptyStore "https://a.example/rss" rfW []
     feedC10 s2C10 rfl (by decide)⟩

end Seymour
